import Mathlib

/-!
Shallow embedding of `src/blockchain.py` (class `Blockchain`): a minimal
hash-linked ledger of session records.  Python dictionaries are modelled as
association lists over a `Json` value type, `json.dumps(..., sort_keys=True)`
and `hashlib.sha256(...).hexdigest()` are implemented as executable Lean
functions, and the mutating methods of the class become explicit
state-passing functions over a `BState` (chain, current_data) record.
`time()` is abstracted as an integer tick supplied by the environment: no
property verified here depends on the numeric value of a timestamp, so the
float formatting of CPython's `json` for timestamps is not modelled (all
other value forms are serialized byte-exactly as CPython does for ASCII and
general Unicode text, integers, booleans, lists and dictionaries).
-/

set_option maxRecDepth 100000

namespace Blockchain

/-- Value universe for the Python objects the program manipulates: JSON-like
data.  Python dicts are association lists in insertion order; `json.dumps`
with `sort_keys=True` sorts the keys only at serialization time. -/
inductive Json where
  | null
  | bool (b : Bool)
  | num (n : Int)
  | str (s : String)
  | arr (elems : List Json)
  | obj (kvs : List (String × Json))

/-- Python dict lookup `d[k]` / `d.get(k)` on an association list (first
match wins; the dicts built by the program never repeat a key). -/
def pyGet : List (String × Json) → String → Option Json
  | [], _ => none
  | (k, v) :: rest, key => if k = key then some v else pyGet rest key

/-- Dictionary field access on a `Json` value (used for block fields such as
`block['index']`); `none` models a `KeyError`/non-dict access. -/
def jGet : Json → String → Option Json
  | .obj kvs, key => pyGet kvs key
  | _, _ => none

/-- Hexadecimal digit characters, lowercase, as produced by `hexdigest` and
by CPython's `\uXXXX` escapes. -/
def hexChar (n : Nat) : Char := "0123456789abcdef".data.getD n '0'

/-- Four hex digits of a number below 2^16. -/
def hex4 (n : Nat) : List Char :=
  [hexChar (n / 4096 % 16), hexChar (n / 256 % 16), hexChar (n / 16 % 16), hexChar (n % 16)]

/-- CPython `json` escaping of a single character (default `ensure_ascii=True`):
short escapes for the common controls, `\uXXXX` (with surrogate pairs beyond
the BMP) for every other character outside printable ASCII. -/
def escapeChar (c : Char) : List Char :=
  if c = '"' then ['\\', '"']
  else if c = '\\' then ['\\', '\\']
  else if c = '\n' then ['\\', 'n']
  else if c = '\t' then ['\\', 't']
  else if c = '\r' then ['\\', 'r']
  else if c.toNat = 8 then ['\\', 'b']
  else if c.toNat = 12 then ['\\', 'f']
  else if 32 ≤ c.toNat ∧ c.toNat ≤ 126 then [c]
  else if c.toNat < 65536 then '\\' :: 'u' :: hex4 c.toNat
  else
    let n := c.toNat - 65536
    ('\\' :: 'u' :: hex4 (55296 + n / 1024)) ++ ('\\' :: 'u' :: hex4 (56320 + n % 1024))

/-- Serialization of a JSON string literal, quotes included. -/
def dumpStr (s : String) : String := String.mk ('"' :: (s.data.flatMap escapeChar ++ ['"']))

/-- Lexicographic comparison of character lists by code point: exactly the
order Python's `sorted` uses on `str` keys. -/
def charListLe : List Char → List Char → Bool
  | [], _ => true
  | _ :: _, [] => false
  | c :: cs, d :: ds => if c < d then true else if d < c then false else charListLe cs ds

theorem charListLe_cons_iff (x y : Char) (xs ys : List Char) :
    charListLe (x :: xs) (y :: ys) = true ↔ (x < y ∨ (x = y ∧ charListLe xs ys = true)) := by
  by_cases h1 : x < y
  · simp [charListLe, h1]
  · by_cases h2 : y < x
    · have hne : x ≠ y := ne_of_gt h2
      simp [charListLe, h1, h2, hne]
    · have hxy : x = y := le_antisymm (le_of_not_lt h2) (le_of_not_lt h1)
      simp [charListLe, h1, h2, hxy]

theorem charListLe_total : ∀ a b : List Char, charListLe a b = true ∨ charListLe b a = true := by
  intro a
  induction a with
  | nil => intro b; left; rfl
  | cons c cs ih =>
    intro b
    cases b with
    | nil => right; rfl
    | cons d ds =>
      rcases lt_trichotomy c d with h | h | h
      · left; rw [charListLe_cons_iff]; exact Or.inl h
      · rcases ih ds with h2 | h2
        · left; rw [charListLe_cons_iff]; exact Or.inr ⟨h, h2⟩
        · right; rw [charListLe_cons_iff]; exact Or.inr ⟨h.symm, h2⟩
      · right; rw [charListLe_cons_iff]; exact Or.inl h

theorem charListLe_trans :
    ∀ a b c : List Char, charListLe a b = true → charListLe b c = true →
      charListLe a c = true := by
  intro a
  induction a with
  | nil => intros; rfl
  | cons x xs ih =>
    intro b c hab hbc
    cases b with
    | nil => simp [charListLe] at hab
    | cons y ys =>
      cases c with
      | nil => simp [charListLe] at hbc
      | cons z zs =>
        rw [charListLe_cons_iff] at hab hbc ⊢
        rcases hab with h | ⟨rfl, h⟩
        · rcases hbc with h2 | ⟨rfl, h2⟩
          · exact Or.inl (lt_trans h h2)
          · exact Or.inl h
        · rcases hbc with h2 | ⟨rfl, h2⟩
          · exact Or.inl h2
          · exact Or.inr ⟨rfl, ih ys zs h h2⟩

theorem charListLe_antisymm :
    ∀ a b : List Char, charListLe a b = true → charListLe b a = true → a = b := by
  intro a
  induction a with
  | nil =>
    intro b _ hba
    cases b with
    | nil => rfl
    | cons d ds => simp [charListLe] at hba
  | cons x xs ih =>
    intro b hab hba
    cases b with
    | nil => simp [charListLe] at hab
    | cons y ys =>
      rw [charListLe_cons_iff] at hab hba
      rcases hab with h | ⟨rfl, h⟩
      · rcases hba with h2 | ⟨rfl, h2⟩
        · exact absurd (lt_trans h h2) (lt_irrefl _)
        · exact absurd h (lt_irrefl _)
      · rcases hba with h2 | ⟨heq, h2⟩
        · exact absurd h2 (lt_irrefl _)
        · rw [ih ys h h2]

/-- Key order used by `sort_keys=True`: compare the (string) keys by code
point, as Python's `sorted` does. -/
def keyle (p q : String × String) : Prop := charListLe p.1.data q.1.data = true

instance : DecidableRel keyle := fun p q =>
  inferInstanceAs (Decidable (charListLe p.1.data q.1.data = true))

instance : IsTotal (String × String) keyle := ⟨fun p q => charListLe_total p.1.data q.1.data⟩

instance : IsTrans (String × String) keyle :=
  ⟨fun _ _ _ h h2 => charListLe_trans _ _ _ h h2⟩

/-- Rendering of one serialized key/value pair, with CPython's default
key separator `": "`. -/
def renderPair (p : String × String) : String := dumpStr p.1 ++ ": " ++ p.2

mutual

/-- `json.dumps(v, sort_keys=True)` with CPython's default separators
`", "` and `": "`: objects are emitted with their keys sorted. -/
def dumps : Json → String
  | .null => "null"
  | .bool true => "true"
  | .bool false => "false"
  | .num n => toString n
  | .str s => dumpStr s
  | .arr xs => "[" ++ String.intercalate ", " (dumpsList xs) ++ "]"
  | .obj kvs =>
    "\x7b" ++ String.intercalate ", " ((List.insertionSort keyle (dumpsKVs kvs)).map renderPair)
      ++ "\x7d"

/-- Serialization of the elements of a JSON array, in order. -/
def dumpsList : List Json → List String
  | [] => []
  | x :: xs => dumps x :: dumpsList xs

/-- Serialization of the values of an object's key/value pairs (the keys are
sorted afterwards, exactly as `sort_keys=True` sorts at serialization time). -/
def dumpsKVs : List (String × Json) → List (String × String)
  | [] => []
  | (k, v) :: rest => (k, dumps v) :: dumpsKVs rest

end

/-- UTF-8 encoding of one character, as `str.encode()` produces. -/
def utf8Bytes (c : Char) : List Nat :=
  let n := c.toNat
  if n < 128 then [n]
  else if n < 2048 then [192 + n / 64, 128 + n % 64]
  else if n < 65536 then [224 + n / 4096, 128 + n / 64 % 64, 128 + n % 64]
  else [240 + n / 262144, 128 + n / 4096 % 64, 128 + n / 64 % 64, 128 + n % 64]

/-- Python `s.encode()`: the UTF-8 bytes of a string, as naturals below 256. -/
def pyEncode (s : String) : List Nat := s.data.flatMap utf8Bytes

/-- Word modulus of the SHA-256 state, 2^32. -/
def M32 : Nat := 4294967296

/-- Addition of 32-bit words, with the overflow wrap made explicit. -/
def addm (a b : Nat) : Nat := (a + b) % M32

/-- Rotation of a 32-bit word right by n places (0 < n < 32). -/
def rotr (n x : Nat) : Nat := x / 2 ^ n + x % 2 ^ n * 2 ^ (32 - n)

/-- Logical right shift of a 32-bit word. -/
def shr (n x : Nat) : Nat := x / 2 ^ n

/-- Bitwise complement within 32 bits. -/
def notm (x : Nat) : Nat := M32 - 1 - x

/-- SHA-256 Σ0. -/
def bigS0 (x : Nat) : Nat := Nat.xor (rotr 2 x) (Nat.xor (rotr 13 x) (rotr 22 x))

/-- SHA-256 Σ1. -/
def bigS1 (x : Nat) : Nat := Nat.xor (rotr 6 x) (Nat.xor (rotr 11 x) (rotr 25 x))

/-- SHA-256 σ0. -/
def smallS0 (x : Nat) : Nat := Nat.xor (rotr 7 x) (Nat.xor (rotr 18 x) (shr 3 x))

/-- SHA-256 σ1. -/
def smallS1 (x : Nat) : Nat := Nat.xor (rotr 17 x) (Nat.xor (rotr 19 x) (shr 10 x))

/-- SHA-256 choice function. -/
def ch (e f g : Nat) : Nat := Nat.xor (Nat.land e f) (Nat.land (notm e) g)

/-- SHA-256 majority function. -/
def maj (a b c : Nat) : Nat := Nat.xor (Nat.land a b) (Nat.xor (Nat.land a c) (Nat.land b c))

/-- Round constants of SHA-256 (FIPS 180-4), in decimal. -/
def K : List Nat :=
  [1116352408, 1899447441, 3049323471, 3921009573, 961987163, 1508970993,
   2453635748, 2870763221, 3624381080, 310598401, 607225278, 1426881987,
   1925078388, 2162078206, 2614888103, 3248222580, 3835390401, 4022224774,
   264347078, 604807628, 770255983, 1249150122, 1555081692, 1996064986,
   2554220882, 2821834349, 2952996808, 3210313671, 3336571891, 3584528711,
   113926993, 338241895, 666307205, 773529912, 1294757372, 1396182291,
   1695183700, 1986661051, 2177026350, 2456956037, 2730485921, 2820302411,
   3259730800, 3345764771, 3516065817, 3600352804, 4094571909, 275423344,
   430227734, 506948616, 659060556, 883997877, 958139571, 1322822218,
   1537002063, 1747873779, 1955562222, 2024104815, 2227730452, 2361852424,
   2428436474, 2756734187, 3204031479, 3329325298]

/-- Initial hash value of SHA-256 (FIPS 180-4), in decimal. -/
def H0 : List Nat :=
  [1779033703, 3144134277, 1013904242, 2773480762,
   1359893119, 2600822924, 528734635, 1541459225]

/-- Big-endian grouping of bytes into 32-bit words. -/
def toWords : List Nat → List Nat
  | b0 :: b1 :: b2 :: b3 :: rest => (((b0 * 256 + b1) * 256 + b2) * 256 + b3) :: toWords rest
  | _ => []

/-- Extension of the 16-word message schedule by n further words. -/
def extendW : Nat → List Nat → List Nat
  | 0, w => w
  | n + 1, w =>
    let len := w.length
    let wi := addm (addm (smallS1 (w.getD (len - 2) 0)) (w.getD (len - 7) 0))
                   (addm (smallS0 (w.getD (len - 15) 0)) (w.getD (len - 16) 0))
    extendW n (w ++ [wi])

/-- One round of the SHA-256 compression function; the state is the word list
[a, b, c, d, e, f, g, h]. -/
def round (st : List Nat) (kw : Nat) : List Nat :=
  match st with
  | [a, b, c, d, e, f, g, h] =>
    let t1 := addm (addm h (bigS1 e)) (addm (ch e f g) kw)
    let t2 := addm (bigS0 a) (maj a b c)
    [addm t1 t2, a, b, c, addm d t1, e, f, g]
  | st => st

/-- Compression of one 64-byte block into the running hash value. -/
def compress (h : List Nat) (blockBytes : List Nat) : List Nat :=
  let w := extendW 48 (toWords blockBytes)
  let kw := List.zipWith addm K w
  let st := kw.foldl round h
  List.zipWith addm h st

/-- Iteration of the compression function over n consecutive 64-byte blocks. -/
def processBlocks : Nat → List Nat → List Nat → List Nat
  | 0, h, _ => h
  | n + 1, h, msg => processBlocks n (compress h (msg.take 64)) (msg.drop 64)

/-- Big-endian byte expansion of a number, k bytes wide. -/
def natToBytesBE : Nat → Nat → List Nat
  | 0, _ => []
  | k + 1, n => natToBytesBE k (n / 256) ++ [n % 256]

/-- SHA-256 message padding: 0x80, zeros to 56 mod 64, 8-byte bit length. -/
def pad (msg : List Nat) : List Nat :=
  let L := msg.length
  msg ++ [128] ++ List.replicate ((119 - L % 64) % 64) 0 ++ natToBytesBE 8 (L * 8)

/-- SHA-256 of a byte sequence, as the eight 32-bit words of the digest. -/
def sha256Words (msg : List Nat) : List Nat :=
  let padded := pad msg
  processBlocks (padded.length / 64) H0 padded

/-- Lowercase hexadecimal rendering of one 32-bit word. -/
def wordHex (w : Nat) : List Char :=
  [hexChar (w / 16 ^ 7 % 16), hexChar (w / 16 ^ 6 % 16), hexChar (w / 16 ^ 5 % 16),
   hexChar (w / 16 ^ 4 % 16), hexChar (w / 16 ^ 3 % 16), hexChar (w / 16 ^ 2 % 16),
   hexChar (w / 16 % 16), hexChar (w % 16)]

/-- Characters of the hex digest of a byte sequence. -/
def sha256hexList (msg : List Nat) : List Char := (sha256Words msg).flatMap wordHex

/-- Python `hashlib.sha256(s.encode()).hexdigest()`. -/
def sha256hex (s : String) : String := String.mk (sha256hexList (pyEncode s))

/-- Python string slicing `s[:n]` (by code points, on the character list). -/
def strSlice (s : String) (n : Nat) : String := String.mk (s.data.take n)

/-- State of a `Blockchain` instance: the `chain` and `current_data`
attributes set up by `__init__`.  Each chain entry is a block dictionary. -/
structure BState where
  chain : List Json
  current_data : List Json

/-- Python-level errors the methods can raise: `KeyError` (a required
dictionary key is absent — the spec's `MissingFieldError`), `IndexError`
(`chain[-1]` on an empty chain — the spec's `EmptyChainError`), and
`TypeError` (arithmetic on a non-integer field). -/
inductive PyErr where
  | keyError (k : String)
  | indexError
  | typeError

/-- Block dictionary literal built by `new_block`, with its keys in the
literal's insertion order. -/
def mkBlock (index : Nat) (timestamp : Int) (data : List Json) (proof : Json)
    (previous_hash : String) : Json :=
  .obj [("index", .num index), ("timestamp", .num timestamp), ("data", .arr data),
        ("proof", proof), ("previous_hash", .str previous_hash)]

/-- Static method `Blockchain.hash`: SHA-256 hex digest of the key-sorted
JSON serialization of a block. -/
def hash (block : Json) : String := sha256hex (dumps block)

/-- Evaluation of `self.hash(self.chain[-1])`: `IndexError` on an empty chain. -/
def computePrevHash (st : BState) : Except PyErr String :=
  match st.chain.getLast? with
  | some b => .ok (hash b)
  | none => .error .indexError

/-- Method `new_block(proof, previous_hash=None)`.  The expression
`previous_hash or self.hash(self.chain[-1])` falls through to the computed
hash both when the argument is `None` and when it is the (falsy) empty
string.  The block is appended to the chain and `current_data` is reset;
the timestamp `t` stands for the value `time()` returned. -/
def new_block (st : BState) (proof : Json) (previous_hash : Option String) (t : Int) :
    Except PyErr (BState × Json) :=
  (match previous_hash with
   | some s => if s = "" then computePrevHash st else .ok s
   | none => computePrevHash st).bind fun ph =>
    let block := mkBlock (st.chain.length + 1) t st.current_data proof ph
    .ok ({ chain := st.chain ++ [block], current_data := [] }, block)

/-- Required keys of a session record: the ones `new_data` reads with plain
subscription (a `KeyError` when absent). -/
def requiredFields : List String :=
  ["users", "dh_parameters", "server_public_key", "receiver_public_key", "sender_public_key"]

/-- Keys of the record dictionary literal built by `new_data`, in its
insertion order. -/
def schemaFields : List String :=
  ["users", "data", "dh_parameters", "server_public_key", "receiver_public_key",
   "sender_public_key", "sender_zkp_status", "receiver_zkp_status", "sender_balance",
   "receiver_balance", "authentification", "Sufficient_amount", "sender_wallet_hash",
   "receiver_wallet_hash"]

/-- Evaluation of `session_data.get(k, dflt)` inside the record literal. -/
def optField (d : List (String × Json)) (k : String) (dflt : Json) : Json :=
  (pyGet d k).getD dflt

/-- Evaluation of the record dictionary literal of `new_data`.  The literal's
values are evaluated left to right, so the first absent required key is the
one whose `KeyError` is raised; the `.get` accesses cannot fail. -/
def buildRecord (d : List (String × Json)) : Except PyErr Json :=
  match pyGet d "users" with
  | none => .error (.keyError "users")
  | some users =>
    match pyGet d "dh_parameters" with
    | none => .error (.keyError "dh_parameters")
    | some dh =>
      match pyGet d "server_public_key" with
      | none => .error (.keyError "server_public_key")
      | some server =>
        match pyGet d "receiver_public_key" with
        | none => .error (.keyError "receiver_public_key")
        | some receiver =>
          match pyGet d "sender_public_key" with
          | none => .error (.keyError "sender_public_key")
          | some sender =>
            .ok (.obj
              [("users", users), ("data", optField d "data" (.arr [])),
               ("dh_parameters", dh), ("server_public_key", server),
               ("receiver_public_key", receiver), ("sender_public_key", sender),
               ("sender_zkp_status", optField d "sender_zkp_status" (.str "Pending")),
               ("receiver_zkp_status", optField d "receiver_zkp_status" (.str "Pending")),
               ("sender_balance", optField d "sender_balance" (.num 0)),
               ("receiver_balance", optField d "receiver_balance" (.num 0)),
               ("authentification", optField d "authentification" (.str "Pending")),
               ("Sufficient_amount", optField d "Sufficient_amount" (.str "Pending")),
               ("sender_wallet_hash", optField d "sender_wallet_hash" (.str "")),
               ("receiver_wallet_hash", optField d "receiver_wallet_hash" (.str ""))])

/-- Method `new_data(session_data)`.  The record literal is evaluated first
(so a missing required key raises before any mutation); on success the
record is appended and `self.last_block['index'] + 1` is returned.  The
second component is the state the instance is left in, also when an
exception propagates. -/
def new_data (st : BState) (d : List (String × Json)) : Except PyErr Int × BState :=
  match buildRecord d with
  | .error e => (.error e, st)
  | .ok rec =>
    let st' : BState := { st with current_data := st.current_data ++ [rec] }
    match st.chain.getLast? with
    | none => (.error .indexError, st')
    | some lb =>
      match jGet lb "index" with
      | some (.num n) => (.ok (n + 1), st')
      | some _ => (.error .typeError, st')
      | none => (.error (.keyError "index"), st')

/-- Property `last_block`: `self.chain[-1]`; `none` models the `IndexError`
on an empty chain (the spec's `EmptyChainError`). -/
def last_block (st : BState) : Option Json := st.chain.getLast?

/-- Static method `valid_proof(last_proof, proof)`: the hex digest of the
encoded concatenation `f'{last_proof}{proof}'` must start with `"0000"`. -/
def valid_proof (last_proof proof : Int) : Bool :=
  strSlice (sha256hex (toString last_proof ++ toString proof)) 4 == "0000"

/-- Method `proof_of_authority(last_proof)`: the `while` loop counts a
candidate up from 0 until `valid_proof` accepts it, so its denotation is the
least accepted candidate; the hypothesis is the loop's termination condition
(the source loop is unbounded and spins forever when no candidate exists). -/
def proof_of_authority (last_proof : Int)
    (h : ∃ p : Nat, valid_proof last_proof (Int.ofNat p) = true) : Nat :=
  Nat.find h

/-- Genesis block created by `__init__` via
`self.new_block(previous_hash='1', proof=100)` at tick t. -/
def genesisBlock (t : Int) : Json := mkBlock 1 t [] (.num 100) "1"

/-- Constructor `__init__`: empty chain and pool, then the genesis sealing. -/
def blockchain_init (t : Int) : BState :=
  { chain := [genesisBlock t], current_data := [] }

/-- States of a `Blockchain` instance reachable from construction by record
submissions (`new_data`, whether they raise or not) and sealings
(`new_block` called with only a proof, at any tick). -/
inductive Reachable : BState → Prop where
  | init (t : Int) : Reachable (blockchain_init t)
  | submit {st : BState} (d : List (String × Json)) :
      Reachable st → Reachable (new_data st d).2
  | sealing {st st' : BState} {b : Json} (proof : Json) (t : Int) :
      Reachable st → new_block st proof none t = .ok (st', b) → Reachable st'

example : sha256hex "abc" = "ba7816bf8f01cfea414140de5dae2223b00361a396177a9cb410ff61f20015ad" := by
  decide

example : valid_proof 100 0 = false := by decide

example : valid_proof 100 35293 = true := by decide

example :
    dumps (genesisBlock 0) =
      "\x7b\"data\": [], \"index\": 1, \"previous_hash\": \"1\", \"proof\": 100, \"timestamp\": 0\x7d" := by
  decide

example :
    hash (genesisBlock 0) = "ec34e4180a3fdfd22a3d7042acd03006fe9ca49804a4479feb262ae0bab1fe07" := by
  decide

/-- Helper: strings with equal character data are equal. -/
theorem string_data_eq {s t : String} (h : s.data = t.data) : s = t := by
  cases s; cases t; exact congrArg String.mk h

/-- Helper: `dumpsKVs` serializes each value, keeping the keys. -/
theorem dumpsKVs_map (l : List (String × Json)) :
    dumpsKVs l = l.map fun kv => (kv.1, dumps kv.2) := by
  induction l with
  | nil => rfl
  | cons p rest ih =>
    obtain ⟨k, v⟩ := p
    simp [dumpsKVs, ih]

/-- Helper: two key-sorted pair lists that are permutations of each other and
have no duplicate keys are equal. -/
theorem sorted_key_eq :
    ∀ l₁ l₂ : List (String × String), l₁.Perm l₂ → l₁.Sorted keyle → l₂.Sorted keyle →
      (l₁.map Prod.fst).Nodup → l₁ = l₂ := by
  intro l₁
  induction l₁ with
  | nil =>
    intro l₂ hp _ _ _
    exact (List.Perm.eq_nil hp.symm).symm
  | cons a t ih =>
    intro l₂ hp hs₁ hs₂ hnd
    cases l₂ with
    | nil => exact absurd hp.eq_nil (by simp)
    | cons b t₂ =>
      simp only [List.map_cons, List.nodup_cons] at hnd
      obtain ⟨hnotin, hndt⟩ := hnd
      have hab : a = b := by
        have ha2 : a ∈ b :: t₂ := hp.subset (List.mem_cons_self a t)
        have hb1 : b ∈ a :: t := hp.symm.subset (List.mem_cons_self b t₂)
        rcases List.mem_cons.mp ha2 with h | ha2'
        · exact h
        rcases List.mem_cons.mp hb1 with h | hb1'
        · exact h.symm
        have h1 : keyle a b := ((List.sorted_cons.mp hs₁).1 b hb1')
        have h2 : keyle b a := ((List.sorted_cons.mp hs₂).1 a ha2')
        have hkey : a.1 = b.1 := string_data_eq (charListLe_antisymm _ _ h1 h2)
        exact absurd (hkey ▸ List.mem_map_of_mem Prod.fst hb1') hnotin
      subst hab
      have ht : t.Perm t₂ := hp.cons_inv
      rw [ih t₂ ht (List.sorted_cons.mp hs₁).2 (List.sorted_cons.mp hs₂).2 hndt]

/-- Helper: sealing equation of `new_block` when called with only a proof on
a state whose chain has a last block. -/
theorem new_block_none_eq (st : BState) (p : Json) (t : Int) (lb : Json)
    (h : st.chain.getLast? = some lb) :
    new_block st p none t =
      .ok ({ chain := st.chain ++ [mkBlock (st.chain.length + 1) t st.current_data p (hash lb)],
             current_data := [] },
           mkBlock (st.chain.length + 1) t st.current_data p (hash lb)) := by
  simp [new_block, computePrevHash, h, Except.bind]

/-- Helper: `new_data` never touches the chain, whether it raises or not. -/
theorem new_data_chain (st : BState) (d : List (String × Json)) :
    (new_data st d).2.chain = st.chain := by
  unfold new_data
  split
  · rfl
  · split
    · rfl
    · split <;> rfl

/-- Helper: block-field reads on the dictionary literal built by `new_block`. -/
theorem jGet_mkBlock_index (i : Nat) (t : Int) (d : List Json) (p : Json) (ph : String) :
    jGet (mkBlock i t d p ph) "index" = some (.num i) := rfl

/-- Helper: the `previous_hash` field of the dictionary literal built by
`new_block`. -/
theorem jGet_mkBlock_prev (i : Nat) (t : Int) (d : List Json) (p : Json) (ph : String) :
    jGet (mkBlock i t d p ph) "previous_hash" = some (.str ph) := rfl

/-- Structural invariant of the chain list: nonempty, every entry is a block
literal carrying its 1-based position as `index`, and every entry past the
first stores the hash of its predecessor as `previous_hash`. -/
def ChainInv (cs : List Json) : Prop :=
  cs ≠ [] ∧
  (∀ (i : Nat) (h : i < cs.length), ∃ t d p ph, cs[i] = mkBlock (i + 1) t d p ph) ∧
  (∀ (i : Nat) (h0 : 0 < i) (h : i < cs.length),
    jGet cs[i] "previous_hash" = some (.str (hash cs[i - 1])))

/-- Helper: the constructor establishes the chain invariant. -/
theorem chainInv_init (t : Int) : ChainInv (blockchain_init t).chain := by
  refine ⟨by simp [blockchain_init], ?_, ?_⟩
  · intro i h
    simp only [blockchain_init, List.length_singleton] at h
    have hi : i = 0 := by omega
    subst hi
    exact ⟨t, [], .num 100, "1", rfl⟩
  · intro i h0 h
    simp only [blockchain_init, List.length_singleton] at h
    omega

/-- Helper: appending the block `new_block` builds preserves the chain
invariant. -/
theorem chainInv_concat (cs : List Json) (lb : Json) (t : Int) (d : List Json) (p : Json)
    (hc : ChainInv cs) (hl : cs.getLast? = some lb) :
    ChainInv (cs ++ [mkBlock (cs.length + 1) t d p (hash lb)]) := by
  obtain ⟨hne, hshape, hlink⟩ := hc
  have hlen : 0 < cs.length := List.length_pos.mpr hne
  have hlb : lb = cs[cs.length - 1] := by
    rw [List.getLast?_eq_getLast_of_ne_nil hne, List.getLast_eq_getElem] at hl
    exact (Option.some_inj.mp hl).symm
  refine ⟨by simp, ?_, ?_⟩
  · intro i h
    have hlt : i < cs.length + 1 := by simpa using h
    by_cases h' : i < cs.length
    · rw [List.getElem_append_left h']
      exact hshape i h'
    · have hi : i = cs.length := by omega
      subst hi
      rw [List.getElem_concat_length]
      exact ⟨t, d, p, hash lb, rfl⟩
      rfl
  · intro i h0 h
    have hlt : i < cs.length + 1 := by simpa using h
    by_cases h' : i < cs.length
    · have h'' : i - 1 < cs.length := by omega
      rw [List.getElem_append_left h', List.getElem_append_left h'']
      exact hlink i h0 h'
    · have hi : i = cs.length := by omega
      subst hi
      have h'' : cs.length - 1 < cs.length := by omega
      rw [List.getElem_concat_length, List.getElem_append_left h'', jGet_mkBlock_prev, hlb]
      rfl

/-- Helper: every reachable ledger state satisfies the chain invariant. -/
theorem reachable_chainInv {st : BState} (h : Reachable st) : ChainInv st.chain := by
  induction h with
  | init t => exact chainInv_init t
  | @submit st d hst ih =>
    rw [new_data_chain]
    exact ih
  | @sealing st st' b p t hst heq ih =>
    have hne := ih.1
    have hl := List.getLast?_eq_getLast_of_ne_nil hne
    rw [new_block_none_eq st p t _ hl] at heq
    injection heq with h1
    injection h1 with h2 h3
    subst h2
    exact chainInv_concat st.chain _ t st.current_data p ih hl

/-- Shared concrete two-block state: the result of sealing once (with proof 5
at tick 1) on a freshly constructed ledger (tick 0). -/
def twoBlockState : BState :=
  { chain := [genesisBlock 0, mkBlock 2 1 [] (.num 5) (hash (genesisBlock 0))],
    current_data := [] }

/-- Sealing step producing `twoBlockState`. -/
theorem twoBlockState_step :
    new_block (blockchain_init 0) (.num 5) none 1 =
      .ok (twoBlockState, mkBlock 2 1 [] (.num 5) (hash (genesisBlock 0))) := rfl

/-- Reachability of the shared two-block state. -/
theorem reachable_twoBlockState : Reachable twoBlockState :=
  Reachable.sealing (.num 5) 1 (Reachable.init 0) twoBlockState_step

/-- C1: chain-link invariant — in every ledger state reachable from
construction by any sequence of record submissions (`new_data`) and sealings
(`new_block` called with only a proof), every block past the first stores
`hash` of its predecessor in its `previous_hash` field. -/
theorem chain_link_invariant (st : BState) (hst : Reachable st) (i : Nat)
    (h0 : 0 < i) (hi : i < st.chain.length) :
    jGet st.chain[i] "previous_hash" = some (.str (hash st.chain[i - 1])) :=
  (reachable_chainInv hst).2.2 i h0 hi

/-- Witness for C1 at the concrete two-block state. -/
theorem chain_link_invariant_witness :
    jGet (twoBlockState.chain.get ⟨1, by decide⟩) "previous_hash" =
      some (.str (hash (twoBlockState.chain.get ⟨0, by decide⟩))) :=
  chain_link_invariant twoBlockState reachable_twoBlockState 1 (by decide) (by decide)

/-- C8: every freshly constructed ledger has a non-empty chain whose first
block has index 1 and the genesis sentinel "1" as `previous_hash`, and in
every reachable state the chain is non-empty, so `last_block` never fails
after construction. -/
theorem genesis_shape_and_nonempty :
    (∀ t : Int,
      (blockchain_init t).chain.head? = some (genesisBlock t) ∧
      jGet (genesisBlock t) "index" = some (.num 1) ∧
      jGet (genesisBlock t) "previous_hash" = some (.str "1")) ∧
    (∀ st : BState, Reachable st → st.chain ≠ [] ∧ (last_block st).isSome = true) := by
  constructor
  · intro t
    exact ⟨rfl, rfl, rfl⟩
  · intro st hst
    have hne := (reachable_chainInv hst).1
    refine ⟨hne, ?_⟩
    rw [last_block, List.getLast?_eq_getLast_of_ne_nil hne]
    rfl

/-- Witness for C8 at tick 0 and the freshly constructed ledger. -/
theorem genesis_shape_and_nonempty_witness :
    ((blockchain_init 0).chain.head? = some (genesisBlock 0) ∧
      jGet (genesisBlock 0) "index" = some (.num 1) ∧
      jGet (genesisBlock 0) "previous_hash" = some (.str "1")) ∧
    ((blockchain_init 0).chain ≠ [] ∧ (last_block (blockchain_init 0)).isSome = true) :=
  ⟨genesis_shape_and_nonempty.1 0, genesis_shape_and_nonempty.2 _ (Reachable.init 0)⟩

/-- C3: on a non-empty chain, sealing (`new_block` with only a proof)
constructs the block with index `len(chain) + 1`, the pending pool as its
`data` (in insertion order), the supplied proof, and `hash` of the last
block as `previous_hash`; it appends that block and empties the pool. -/
theorem seal_block_effect (st : BState) (p : Json) (t : Int) (lb : Json)
    (h : st.chain.getLast? = some lb) :
    new_block st p none t =
      .ok ({ chain := st.chain ++ [mkBlock (st.chain.length + 1) t st.current_data p (hash lb)],
             current_data := [] },
           mkBlock (st.chain.length + 1) t st.current_data p (hash lb)) :=
  new_block_none_eq st p t lb h

/-- Witness for C3 on the freshly constructed ledger. -/
theorem seal_block_effect_witness :
    new_block (blockchain_init 0) (.num 7) none 2 =
      .ok ({ chain := (blockchain_init 0).chain ++
               [mkBlock ((blockchain_init 0).chain.length + 1) 2
                 (blockchain_init 0).current_data (.num 7) (hash (genesisBlock 0))],
             current_data := [] },
           mkBlock ((blockchain_init 0).chain.length + 1) 2
             (blockchain_init 0).current_data (.num 7) (hash (genesisBlock 0))) :=
  seal_block_effect (blockchain_init 0) (.num 7) 2 (genesisBlock 0) rfl

/-- C2 counterexample: proof 0 fails validation against the genesis proof
100, yet `new_block` raises nothing (the code defines no proof check and no
`InvalidProofError`) and the chain grows from one block to two. -/
theorem sealing_skips_validation_cex :
    valid_proof 100 0 = false ∧
    (new_block (blockchain_init 0) (.num 0) none 1).map
        (fun r => (r.1.chain.length, r.1.current_data)) = .ok (2, []) := by
  constructor
  · decide
  · rfl

/-- C2 (amended): `new_block` performs no proof validation — for every state
with a non-empty chain and every proof value, validated or not, sealing
succeeds, appends the block, and clears the pool. -/
theorem sealing_accepts_any_proof (st : BState) (p : Json) (t : Int) (h : st.chain ≠ []) :
    ∃ st2 b, new_block st p none t = .ok (st2, b) ∧
      st2.chain = st.chain ++ [b] ∧ st2.current_data = [] := by
  have hl := List.getLast?_eq_getLast_of_ne_nil h
  exact ⟨_, _, new_block_none_eq st p t _ hl, rfl, rfl⟩

/-- Witness for the amended C2, with the invalid proof 0. -/
theorem sealing_accepts_any_proof_witness :
    ∃ st2 b, new_block (blockchain_init 0) (.num 0) none 1 = .ok (st2, b) ∧
      st2.chain = (blockchain_init 0).chain ++ [b] ∧ st2.current_data = [] :=
  sealing_accepts_any_proof (blockchain_init 0) (.num 0) 1 (by simp [blockchain_init])

/-- C4: `valid_proof` accepts exactly when the hex digest of the encoded
concatenation of the two integers' decimal texts begins with the four
characters "0000". -/
theorem valid_proof_iff_digest_prefix (a b : Int) :
    valid_proof a b = true ↔
      ∃ rest : List Char,
        (sha256hex (toString a ++ toString b)).data = '0' :: '0' :: '0' :: '0' :: rest := by
  unfold valid_proof strSlice
  rw [beq_iff_eq]
  constructor
  · intro h
    have hd : (sha256hex (toString a ++ toString b)).data.take 4 = "0000".data :=
      congrArg String.data h
    refine ⟨(sha256hex (toString a ++ toString b)).data.drop 4, ?_⟩
    conv_lhs => rw [← List.take_append_drop 4 (sha256hex (toString a ++ toString b)).data]
    rw [hd]
    rfl
  · rintro ⟨rest, hr⟩
    rw [hr]
    rfl

/-- Termination hypothesis of the proof search at `last_proof = 100`: the
candidate 35293 passes validation. -/
def poaTerm100 : ∃ p : Nat, valid_proof 100 (Int.ofNat p) = true := ⟨35293, by decide⟩

/-- C5: whenever some candidate passes validation, the search loop of
`proof_of_authority` terminates and returns the smallest passing candidate
(it counts up from 0 by 1); in particular the returned proof validates. -/
theorem proof_of_authority_least (lp : Int)
    (h : ∃ p : Nat, valid_proof lp (Int.ofNat p) = true) :
    valid_proof lp (Int.ofNat (proof_of_authority lp h)) = true ∧
      ∀ m : Nat, m < proof_of_authority lp h → valid_proof lp (Int.ofNat m) = false := by
  constructor
  · exact Nat.find_spec h
  · intro m hm
    have hmin := Nat.find_min h hm
    simpa using hmin

/-- Witness for C5 at `last_proof = 100`. -/
theorem proof_of_authority_least_witness :
    valid_proof 100 (Int.ofNat (proof_of_authority 100 poaTerm100)) = true :=
  (proof_of_authority_least 100 poaTerm100).1

/-- C6: a submission missing at least one required field fails with the
`KeyError` (the spec's `MissingFieldError`) naming a missing required field,
and leaves the instance — in particular the pending pool — exactly as it
was (the record literal is evaluated before any append). -/
theorem missing_field_rejected (st : BState) (d : List (String × Json))
    (hmiss : ∃ k, k ∈ requiredFields ∧ pyGet d k = none) :
    ∃ k, k ∈ requiredFields ∧ pyGet d k = none ∧
      new_data st d = (.error (.keyError k), st) := by
  cases h1 : pyGet d "users" with
  | none =>
    exact ⟨"users", by simp [requiredFields], h1, by simp [new_data, buildRecord, h1]⟩
  | some v1 =>
    cases h2 : pyGet d "dh_parameters" with
    | none =>
      exact ⟨"dh_parameters", by simp [requiredFields], h2,
        by simp [new_data, buildRecord, h1, h2]⟩
    | some v2 =>
      cases h3 : pyGet d "server_public_key" with
      | none =>
        exact ⟨"server_public_key", by simp [requiredFields], h3,
          by simp [new_data, buildRecord, h1, h2, h3]⟩
      | some v3 =>
        cases h4 : pyGet d "receiver_public_key" with
        | none =>
          exact ⟨"receiver_public_key", by simp [requiredFields], h4,
            by simp [new_data, buildRecord, h1, h2, h3, h4]⟩
        | some v4 =>
          cases h5 : pyGet d "sender_public_key" with
          | none =>
            exact ⟨"sender_public_key", by simp [requiredFields], h5,
              by simp [new_data, buildRecord, h1, h2, h3, h4, h5]⟩
          | some v5 =>
            exfalso
            obtain ⟨k, hk, hnone⟩ := hmiss
            simp only [requiredFields, List.mem_cons, List.not_mem_nil, or_false] at hk
            rcases hk with rfl | rfl | rfl | rfl | rfl <;> simp_all

/-- Witness for C6: a record with only `users` present. -/
theorem missing_field_rejected_witness :
    ∃ k, k ∈ requiredFields ∧ pyGet [("users", Json.str "alice")] k = none ∧
      new_data (blockchain_init 0) [("users", Json.str "alice")] =
        (.error (.keyError k), blockchain_init 0) :=
  missing_field_rejected (blockchain_init 0) [("users", .str "alice")]
    ⟨"dh_parameters", by decide, rfl⟩

/-- C7: on a reachable state (non-empty chain with well-formed indices), a
submission with all required fields appends exactly one normalized record to
the end of the pool, returns `len(chain) + 1`, and leaves the chain itself
unchanged. -/
theorem submit_record_effect (st : BState) (hst : Reachable st) (d : List (String × Json))
    (h1 : (pyGet d "users").isSome = true)
    (h2 : (pyGet d "dh_parameters").isSome = true)
    (h3 : (pyGet d "server_public_key").isSome = true)
    (h4 : (pyGet d "receiver_public_key").isSome = true)
    (h5 : (pyGet d "sender_public_key").isSome = true) :
    ∃ rec, buildRecord d = .ok rec ∧
      new_data st d = (.ok ((st.chain.length : Int) + 1),
        { chain := st.chain, current_data := st.current_data ++ [rec] }) := by
  obtain ⟨v1, e1⟩ := Option.isSome_iff_exists.mp h1
  obtain ⟨v2, e2⟩ := Option.isSome_iff_exists.mp h2
  obtain ⟨v3, e3⟩ := Option.isSome_iff_exists.mp h3
  obtain ⟨v4, e4⟩ := Option.isSome_iff_exists.mp h4
  obtain ⟨v5, e5⟩ := Option.isSome_iff_exists.mp h5
  have hrec : buildRecord d = .ok (.obj
      [("users", v1), ("data", optField d "data" (.arr [])),
       ("dh_parameters", v2), ("server_public_key", v3),
       ("receiver_public_key", v4), ("sender_public_key", v5),
       ("sender_zkp_status", optField d "sender_zkp_status" (.str "Pending")),
       ("receiver_zkp_status", optField d "receiver_zkp_status" (.str "Pending")),
       ("sender_balance", optField d "sender_balance" (.num 0)),
       ("receiver_balance", optField d "receiver_balance" (.num 0)),
       ("authentification", optField d "authentification" (.str "Pending")),
       ("Sufficient_amount", optField d "Sufficient_amount" (.str "Pending")),
       ("sender_wallet_hash", optField d "sender_wallet_hash" (.str "")),
       ("receiver_wallet_hash", optField d "receiver_wallet_hash" (.str ""))]) := by
    simp [buildRecord, e1, e2, e3, e4, e5]
  have hinv := reachable_chainInv hst
  have hne := hinv.1
  have hlen : 0 < st.chain.length := List.length_pos.mpr hne
  have hl := List.getLast?_eq_getLast_of_ne_nil hne
  obtain ⟨t0, d0, p0, ph0, hshape⟩ := hinv.2.1 (st.chain.length - 1) (by omega)
  have hidx : jGet (st.chain.getLast hne) "index" = some (.num (st.chain.length : Int)) := by
    have hlen1 : st.chain.length - 1 + 1 = st.chain.length := by omega
    rw [List.getLast_eq_getElem, hshape, jGet_mkBlock_index, hlen1]
  refine ⟨_, hrec, ?_⟩
  unfold new_data
  simp only [hrec, hl, hidx]

/-- Shared concrete record submission with exactly the required fields. -/
def dExample : List (String × Json) :=
  [("users", .str "alice,bob"), ("dh_parameters", .str "p"), ("server_public_key", .str "s"),
   ("receiver_public_key", .str "r"), ("sender_public_key", .str "a")]

/-- Witness for C7 on the freshly constructed ledger. -/
theorem submit_record_effect_witness :
    ∃ rec, buildRecord dExample = .ok rec ∧
      new_data (blockchain_init 0) dExample =
        (.ok (((blockchain_init 0).chain.length : Int) + 1),
         { chain := (blockchain_init 0).chain,
           current_data := (blockchain_init 0).current_data ++ [rec] }) :=
  submit_record_effect (blockchain_init 0) (Reachable.init 0) dExample rfl rfl rfl rfl rfl

/-- C9: `hash` is deterministic — two block dictionaries holding identical
field values (nested values included, verbatim) hash to the identical
digest even when their key/value pairs are stored in different insertion
orders, because serialization sorts the field names first. -/
theorem hash_deterministic (kvs1 kvs2 : List (String × Json))
    (hp : kvs1.Perm kvs2) (hnd : (kvs1.map Prod.fst).Nodup) :
    hash (.obj kvs1) = hash (.obj kvs2) := by
  unfold hash
  congr 1
  have hperm : (dumpsKVs kvs1).Perm (dumpsKVs kvs2) := by
    rw [dumpsKVs_map, dumpsKVs_map]
    exact hp.map _
  have e1 : (dumpsKVs kvs1).map Prod.fst = kvs1.map Prod.fst := by
    rw [dumpsKVs_map, List.map_map]
    rfl
  have hnd1 : ((List.insertionSort keyle (dumpsKVs kvs1)).map Prod.fst).Nodup := by
    have hpm : ((List.insertionSort keyle (dumpsKVs kvs1)).map Prod.fst).Perm
        ((dumpsKVs kvs1).map Prod.fst) := (List.perm_insertionSort keyle _).map _
    rw [hpm.nodup_iff, e1]
    exact hnd
  have hps : (List.insertionSort keyle (dumpsKVs kvs1)).Perm
      (List.insertionSort keyle (dumpsKVs kvs2)) :=
    (List.perm_insertionSort keyle _).trans (hperm.trans (List.perm_insertionSort keyle _).symm)
  have heq := sorted_key_eq _ _ hps (List.sorted_insertionSort keyle _)
    (List.sorted_insertionSort keyle _) hnd1
  simp only [dumps]
  rw [heq]

/-- Witness for C9: the same two fields in either insertion order. -/
theorem hash_deterministic_witness :
    hash (.obj [("b", .num 1), ("a", .num 2)]) =
      hash (.obj [("a", .num 2), ("b", .num 1)]) :=
  hash_deterministic _ _ (List.Perm.swap ("a", Json.num 2) ("b", Json.num 1) []) (by decide)

/-- C10: the record `new_data` stores consists of exactly the 14 schema
fields and no others — the outcome depends only on the 14 schema keys of
the input (extra keys are silently discarded), and the stored record's keys
are exactly the schema fields. -/
theorem record_schema_exact (st : BState) (d1 d2 : List (String × Json))
    (h : ∀ k ∈ schemaFields, pyGet d1 k = pyGet d2 k) :
    new_data st d1 = new_data st d2 ∧
      ∀ kvs, buildRecord d1 = .ok (.obj kvs) → kvs.map Prod.fst = schemaFields := by
  have e1 := h "users" (by simp [schemaFields])
  have e2 := h "data" (by simp [schemaFields])
  have e3 := h "dh_parameters" (by simp [schemaFields])
  have e4 := h "server_public_key" (by simp [schemaFields])
  have e5 := h "receiver_public_key" (by simp [schemaFields])
  have e6 := h "sender_public_key" (by simp [schemaFields])
  have e7 := h "sender_zkp_status" (by simp [schemaFields])
  have e8 := h "receiver_zkp_status" (by simp [schemaFields])
  have e9 := h "sender_balance" (by simp [schemaFields])
  have e10 := h "receiver_balance" (by simp [schemaFields])
  have e11 := h "authentification" (by simp [schemaFields])
  have e12 := h "Sufficient_amount" (by simp [schemaFields])
  have e13 := h "sender_wallet_hash" (by simp [schemaFields])
  have e14 := h "receiver_wallet_hash" (by simp [schemaFields])
  have hbr : buildRecord d1 = buildRecord d2 := by
    unfold buildRecord optField
    rw [e1, e2, e3, e4, e5, e6, e7, e8, e9, e10, e11, e12, e13, e14]
  constructor
  · unfold new_data
    rw [hbr]
  · intro kvs hk
    unfold buildRecord at hk
    cases hh1 : pyGet d1 "users" with
    | none =>
      simp only [hh1] at hk
      exact Except.noConfusion hk
    | some v1 =>
      simp only [hh1] at hk
      cases hh2 : pyGet d1 "dh_parameters" with
      | none =>
      simp only [hh2] at hk
      exact Except.noConfusion hk
      | some v2 =>
        simp only [hh2] at hk
        cases hh3 : pyGet d1 "server_public_key" with
        | none =>
      simp only [hh3] at hk
      exact Except.noConfusion hk
        | some v3 =>
          simp only [hh3] at hk
          cases hh4 : pyGet d1 "receiver_public_key" with
          | none =>
      simp only [hh4] at hk
      exact Except.noConfusion hk
          | some v4 =>
            simp only [hh4] at hk
            cases hh5 : pyGet d1 "sender_public_key" with
            | none =>
      simp only [hh5] at hk
      exact Except.noConfusion hk
            | some v5 =>
              simp only [hh5, Except.ok.injEq, Json.obj.injEq] at hk
              rw [← hk]
              rfl

/-- Witness for C10: an input with an extra key against the same input
without it. -/
theorem record_schema_exact_witness :
    (new_data (blockchain_init 0) (("extra", Json.num 7) :: dExample) =
        new_data (blockchain_init 0) dExample) ∧
      ∀ kvs, buildRecord (("extra", Json.num 7) :: dExample) = .ok (.obj kvs) →
        kvs.map Prod.fst = schemaFields :=
  record_schema_exact (blockchain_init 0) (("extra", .num 7) :: dExample) dExample
    (by
      intro k hk
      simp only [schemaFields, List.mem_cons, List.not_mem_nil, or_false] at hk
      rcases hk with rfl | rfl | rfl | rfl | rfl | rfl | rfl | rfl | rfl | rfl | rfl | rfl
        | rfl | rfl <;> rfl)

end Blockchain
